import Mathlib

set_option maxRecDepth 100000

/-! Shallow embedding of the dyadic fixed-point library and its PID regulator.
Machine integers (i32 numerators, i8 powers) are modelled as Int with explicit
twos-complement wrapping where the source uses plain (release-mode) machine
arithmetic, and explicit clamping where the source uses saturating operations. -/

/-- Twos-complement wrap of an Int into the i32 range. -/
def wrap32 (x : Int) : Int := (x + 2147483648) % 4294967296 - 2147483648

/-- Twos-complement wrap of an Int into the i8 range. -/
def wrap8 (x : Int) : Int := (x + 128) % 256 - 128

def minI32 : Int := -2147483648

def maxI32 : Int := 2147483647

/-- Rust i32::saturating_add. -/
def satAdd32 (x y : Int) : Int := max minI32 (min maxI32 (x + y))

/-- Rust i32::saturating_sub. -/
def satSub32 (x y : Int) : Int := max minI32 (min maxI32 (x - y))

/-- Rust i32::saturating_mul. -/
def satMul32 (x y : Int) : Int := max minI32 (min maxI32 (x * y))

/-- Rust i8::saturating_add. -/
def satAdd8 (x y : Int) : Int := max (-128) (min 127 (x + y))

/-- Rust release-mode i32 left shift: the shift amount is masked to its low
five bits and the shifted value wraps in twos complement. -/
def shlMask (x n : Int) : Int := wrap32 (x * 2 ^ (n % 32).toNat)

/-- The fixed-point value type of lib.rs: numerator times 2 to the minus power. -/
structure DyadicFraction where
  num : Int
  power : Int
deriving DecidableEq

namespace DyadicFraction

/-- The while loop of DyadicFraction::canonical, with an explicit iteration
bound (the loop halves the numerator each step, so natAbs-many steps always
suffice; fuel independence is proved below). -/
def canonLoopF : Nat → DyadicFraction → DyadicFraction
  | 0, df => df
  | fuel+1, df =>
    if df.num ≠ 0 ∧ df.num % 2 = 0 then
      canonLoopF fuel ⟨df.num / 2, wrap8 (df.power - 1)⟩
    else df

/-- DyadicFraction::canonical: zero forces power 0, then the numerator is
halved (arithmetic right shift) and the power decremented while the numerator
is nonzero and even. -/
def canonical (df : DyadicFraction) : DyadicFraction :=
  let df0 : DyadicFraction := if df.num = 0 then ⟨0, 0⟩ else df
  canonLoopF df0.num.natAbs.succ df0

/-- DyadicFraction::new. -/
def new (numerator denominator_power : Int) : DyadicFraction :=
  canonical ⟨numerator, denominator_power⟩

/-- DyadicFraction::zero. -/
def zero : DyadicFraction := ⟨0, 0⟩

/-- Neg for DyadicFraction: wrapping negation of the numerator, then new. -/
def neg (df : DyadicFraction) : DyadicFraction := new (wrap32 (-df.num)) df.power

/-- DyadicFraction::abs: wrapping absolute value of the numerator, then new. -/
def abs (df : DyadicFraction) : DyadicFraction := new (wrap32 |df.num|) df.power

/-- DyadicFraction::signum. -/
def signum (df : DyadicFraction) : DyadicFraction := new df.num.sign 0

/-- DyadicFraction::copysign. -/
def copysign (df : DyadicFraction) (sign : Int) : DyadicFraction :=
  if sign.sign = df.num.sign then df else new (wrap32 (-df.num)) df.power

/-- DyadicFraction::div_by_two: plain (wrapping) i8 increment of the power. -/
def div_by_two (df : DyadicFraction) : DyadicFraction :=
  ⟨df.num, wrap8 (df.power + 1)⟩

/-- DyadicFraction::saturating_cross: align both numerators at the larger
power; each i8 shift amount is computed with wrapping subtraction, shifts of
32 or more are replaced by i32::MAX for a positive operand and i32::MIN
otherwise. -/
def saturating_cross (a b : DyadicFraction) : Int × Int × Int :=
  let mm : Int × Int :=
    if b.power < a.power then (b.power, a.power) else (a.power, b.power)
  let power := mm.2
  let s1 := wrap8 (b.power - mm.1)
  let fst := if s1 < 32 then shlMask a.num s1
    else if 0 < a.num then maxI32 else minI32
  let s2 := wrap8 (a.power - mm.1)
  let snd := if s2 < 32 then shlMask b.num s2
    else if 0 < b.num then maxI32 else minI32
  (fst, snd, power)

/-- Add for DyadicFraction. -/
def add (a b : DyadicFraction) : DyadicFraction :=
  let c := saturating_cross a b
  new (satAdd32 c.1 c.2.1) c.2.2

/-- Sub for DyadicFraction. -/
def sub (a b : DyadicFraction) : DyadicFraction :=
  let c := saturating_cross a b
  new (satSub32 c.1 c.2.1) c.2.2

/-- Mul for DyadicFraction. -/
def mul (a b : DyadicFraction) : DyadicFraction :=
  new (satMul32 a.num b.num) (satAdd8 a.power b.power)

/-- DyadicFraction::mul_add. -/
def mul_add (df a b : DyadicFraction) : DyadicFraction := add (mul df a) b

/-- The repeated-multiplication loop of DyadicFraction::pow. -/
def powLoop (base : DyadicFraction) : Nat → DyadicFraction → DyadicFraction
  | 0, acc => acc
  | k+1, acc => powLoop base k (mul acc base)

/-- DyadicFraction::pow: signum at exponent 0, otherwise n-1 further
self-multiplications. -/
def pow (df : DyadicFraction) (n : Nat) : DyadicFraction :=
  if n = 0 then df.signum else powLoop df (n - 1) df

/-- From DyadicFraction for i32 (called floor by the tests): canonicalize,
then shift the numerator by the absolute power, saturating only when that
absolute value exceeds 32. -/
def floor (df : DyadicFraction) : Int :=
  let v := canonical df
  let shift := wrap8 |v.power|
  if 32 < shift then (if v.power < 0 then v.num.sign * maxI32 else 0)
  else if v.power < 0 then shlMask v.num shift
  else v.num / 2 ^ (shift % 32).toNat

/-- DyadicFraction::scale. -/
def scale (df a : DyadicFraction) : Int := floor (mul (canonical df) a)

/-- Ord::cmp for DyadicFraction, as the sign of the numerator of the
saturating difference (-1, 0 or 1 for Less, Equal, Greater). -/
def cmp (a b : DyadicFraction) : Int := (sub a b).num.sign

/-- Ord::clamp (the core library default implementation) over the cmp order. -/
def clamp (x lo hi : DyadicFraction) : DyadicFraction :=
  if cmp x lo = -1 then lo else if cmp x hi = 1 then hi else x

/-- PartialEq::eq for DyadicFraction: equality of canonical forms. -/
def eq (a b : DyadicFraction) : Prop := canonical a = canonical b

instance (a b : DyadicFraction) : Decidable (eq a b) := by
  unfold eq; infer_instance

/-- The body of the while loop of DyadicFraction::round, with an explicit
iteration bound; none means the bound was exhausted without the loop
terminating. -/
def roundLoopF : Nat → Int → DyadicFraction → Option DyadicFraction
  | 0, _, _ => none
  | fuel+1, dp, df =>
    if dp < df.power then
      roundLoopF fuel dp (canonical ⟨df.num - df.num % 2, df.power⟩)
    else some df

/-- DyadicFraction::round with an explicit iteration bound for its loop. -/
def roundF (fuel : Nat) (df : DyadicFraction) (dp : Int) : Option DyadicFraction :=
  let res := canonical df
  if dp ≥ res.power then some res else roundLoopF fuel dp res

/-- The representation invariant of the Rust struct: an i32 numerator and an
i8 power. -/
def inRange (df : DyadicFraction) : Prop :=
  minI32 ≤ df.num ∧ df.num ≤ maxI32 ∧ -128 ≤ df.power ∧ df.power ≤ 127

/-- The shape of every canonical result: the zero representation, or an odd
numerator. -/
def canonForm (df : DyadicFraction) : Prop :=
  df = ⟨0, 0⟩ ∨ df.num % 2 = 1

instance (df : DyadicFraction) : Decidable (inRange df) := by
  unfold inRange; infer_instance

instance (df : DyadicFraction) : Decidable (canonForm df) := by
  unfold canonForm; infer_instance

/-- The exact rational value of a representation. -/
def val (df : DyadicFraction) : ℚ := (df.num : ℚ) * (2 : ℚ) ^ (-df.power)

end DyadicFraction

/-- The PID regulator state of pid.rs. -/
structure Regulator where
  kp : DyadicFraction
  ki : DyadicFraction
  kd : DyadicFraction
  last_error : DyadicFraction
  error_sum : DyadicFraction
  min_error_sum : DyadicFraction
  max_error_sum : DyadicFraction
deriving DecidableEq

/-- Regulator::new. -/
def Regulator.new (kp ki kd min_error_sum max_error_sum : DyadicFraction) :
    Regulator :=
  { kp := kp, ki := ki, kd := kd,
    min_error_sum := min_error_sum, max_error_sum := max_error_sum,
    last_error := ⟨0, 0⟩, error_sum := ⟨0, 0⟩ }

/-- Regulator::update, returning the updated state together with the output. -/
def Regulator.update (r : Regulator) (sp v : DyadicFraction) :
    Regulator × DyadicFraction :=
  let error := DyadicFraction.sub sp v
  let error_delta := DyadicFraction.sub error r.last_error
  let last_error := error
  let error_sum :=
    DyadicFraction.clamp (DyadicFraction.add r.error_sum error)
      r.min_error_sum r.max_error_sum
  let p := DyadicFraction.mul error r.kp
  let i := DyadicFraction.mul error_sum r.ki
  let d := DyadicFraction.mul error_delta r.kd
  ({ r with last_error := last_error, error_sum := error_sum },
    DyadicFraction.add (DyadicFraction.add p i) d)

lemma wrap8_bounds (x : Int) : -128 ≤ wrap8 x ∧ wrap8 x ≤ 127 := by
  unfold wrap8; omega

lemma wrap8_eq_self {x : Int} (h1 : -128 ≤ x) (h2 : x ≤ 127) : wrap8 x = x := by
  unfold wrap8; omega

lemma wrap32_bounds (x : Int) : minI32 ≤ wrap32 x ∧ wrap32 x ≤ maxI32 := by
  unfold wrap32 minI32 maxI32; omega

lemma wrap32_eq_self {x : Int} (h1 : minI32 ≤ x) (h2 : x ≤ maxI32) : wrap32 x = x := by
  unfold wrap32 minI32 maxI32 at *; omega

lemma satAdd32_bounds (x y : Int) : minI32 ≤ satAdd32 x y ∧ satAdd32 x y ≤ maxI32 :=
  ⟨le_max_left _ _, max_le (by norm_num [minI32, maxI32]) (min_le_left _ _)⟩

lemma satSub32_bounds (x y : Int) : minI32 ≤ satSub32 x y ∧ satSub32 x y ≤ maxI32 :=
  ⟨le_max_left _ _, max_le (by norm_num [minI32, maxI32]) (min_le_left _ _)⟩

lemma satMul32_bounds (x y : Int) : minI32 ≤ satMul32 x y ∧ satMul32 x y ≤ maxI32 :=
  ⟨le_max_left _ _, max_le (by norm_num [minI32, maxI32]) (min_le_left _ _)⟩

lemma satAdd8_bounds (x y : Int) : -128 ≤ satAdd8 x y ∧ satAdd8 x y ≤ 127 :=
  ⟨le_max_left _ _, max_le (by norm_num) (min_le_left _ _)⟩

lemma satAdd32_eq_self {x y : Int} (h1 : minI32 ≤ x + y) (h2 : x + y ≤ maxI32) :
    satAdd32 x y = x + y := by
  unfold satAdd32
  rw [min_eq_right h2, max_eq_right h1]

lemma halve_natAbs_lt {x : Int} (h0 : x ≠ 0) (h2 : x % 2 = 0) :
    (x / 2).natAbs < x.natAbs := by omega

namespace DyadicFraction

lemma canonLoopF_fuel_irrel :
    ∀ (f g : Nat) (df : DyadicFraction), df.num.natAbs < f → df.num.natAbs < g →
      canonLoopF f df = canonLoopF g df := by
  intro f
  induction f with
  | zero => intro g df hf; omega
  | succ n ih =>
    intro g df hf hg
    match g, hg with
    | m + 1, hg =>
      by_cases hc : df.num ≠ 0 ∧ df.num % 2 = 0
      · simp only [canonLoopF, if_pos hc]
        have hlt := halve_natAbs_lt hc.1 hc.2
        exact ih m ⟨df.num / 2, wrap8 (df.power - 1)⟩
          (by show (df.num / 2).natAbs < n; omega)
          (by show (df.num / 2).natAbs < m; omega)
      · simp only [canonLoopF, if_neg hc]

/-- The defining recurrence of DyadicFraction::canonical: a zero numerator
forces power 0, an even nonzero numerator is halved with the power
decremented (wrapping i8 arithmetic), and an odd numerator is left alone. -/
lemma canonical_rec (df : DyadicFraction) :
    canonical df =
      if df.num = 0 then ⟨0, 0⟩
      else if df.num % 2 = 0 then canonical ⟨df.num / 2, wrap8 (df.power - 1)⟩
      else df := by
  by_cases h0 : df.num = 0
  · simp only [if_pos h0]
    unfold canonical
    simp only [if_pos h0]
    rfl
  · by_cases h2 : df.num % 2 = 0
    · simp only [if_neg h0, if_pos h2]
      unfold canonical
      have hh : ((⟨df.num / 2, wrap8 (df.power - 1)⟩ : DyadicFraction)).num ≠ 0 := by
        simp only []; omega
      simp only [if_neg h0, if_neg hh]
      have hstep : canonLoopF df.num.natAbs.succ df =
          canonLoopF df.num.natAbs ⟨df.num / 2, wrap8 (df.power - 1)⟩ := by
        simp only [canonLoopF, if_pos (And.intro h0 h2)]
      rw [hstep]
      exact canonLoopF_fuel_irrel _ _ _ (halve_natAbs_lt h0 h2) (Nat.lt_succ_self _)
    · simp only [if_neg h0, if_neg h2]
      unfold canonical
      simp only [if_neg h0]
      have hng : ¬ (df.num ≠ 0 ∧ df.num % 2 = 0) := by omega
      simp only [canonLoopF, if_neg hng]

lemma canonLoopF_odd :
    ∀ (f : Nat) (df : DyadicFraction), df.num.natAbs < f → df.num ≠ 0 →
      (canonLoopF f df).num % 2 = 1 := by
  intro f
  induction f with
  | zero => intro df hf; omega
  | succ n ih =>
    intro df hf h0
    by_cases hc : df.num ≠ 0 ∧ df.num % 2 = 0
    · simp only [canonLoopF, if_pos hc]
      have hlt := halve_natAbs_lt hc.1 hc.2
      exact ih ⟨df.num / 2, wrap8 (df.power - 1)⟩
        (by show (df.num / 2).natAbs < n; omega)
        (by show df.num / 2 ≠ 0; omega)
    · simp only [canonLoopF, if_neg hc]
      omega

/-- Every canonical result is the zero representation or has an odd numerator. -/
lemma canonForm_canonical (df : DyadicFraction) : canonForm (canonical df) := by
  by_cases h0 : df.num = 0
  · left
    unfold canonical
    simp only [if_pos h0]
    rfl
  · right
    unfold canonical
    simp only [if_neg h0]
    exact canonLoopF_odd _ df (Nat.lt_succ_self _) h0

lemma canonical_of_canonForm {df : DyadicFraction} (h : canonForm df) :
    canonical df = df := by
  rcases h with h | h
  · rw [h]; rfl
  · rw [canonical_rec]
    have h0 : df.num ≠ 0 := by omega
    simp only [if_neg h0]
    have h2 : ¬ df.num % 2 = 0 := by omega
    simp only [if_neg h2]

lemma canonical_idem (df : DyadicFraction) :
    canonical (canonical df) = canonical df :=
  canonical_of_canonForm (canonForm_canonical df)

lemma canonLoopF_inRange :
    ∀ (f : Nat) (df : DyadicFraction), inRange df → inRange (canonLoopF f df) := by
  intro f
  induction f with
  | zero => intro df h; exact h
  | succ n ih =>
    intro df h
    by_cases hc : df.num ≠ 0 ∧ df.num % 2 = 0
    · simp only [canonLoopF, if_pos hc]
      apply ih
      obtain ⟨ha, hb, _, _⟩ := h
      have hw := wrap8_bounds (df.power - 1)
      refine ⟨?_, ?_, hw.1, hw.2⟩
      · simp only []; unfold minI32 at *; omega
      · simp only []; unfold minI32 maxI32 at *; omega
    · simp only [canonLoopF, if_neg hc]
      exact h

lemma canonical_inRange {df : DyadicFraction} (h : inRange df) :
    inRange (canonical df) := by
  unfold canonical
  by_cases h0 : df.num = 0
  · simp only [if_pos h0]
    exact canonLoopF_inRange _ _ (by norm_num [inRange, minI32, maxI32])
  · simp only [if_neg h0]
    exact canonLoopF_inRange _ _ h

lemma new_inRange {n p : Int} (h1 : minI32 ≤ n) (h2 : n ≤ maxI32)
    (h3 : -128 ≤ p) (h4 : p ≤ 127) : inRange (new n p) :=
  canonical_inRange ⟨h1, h2, h3, h4⟩

lemma cross_fst (a b : DyadicFraction) :
    (saturating_cross a b).1 =
      if wrap8 (b.power - min a.power b.power) < 32
      then shlMask a.num (wrap8 (b.power - min a.power b.power))
      else if 0 < a.num then maxI32 else minI32 := by
  unfold saturating_cross
  by_cases h : b.power < a.power
  · have hm : min a.power b.power = b.power := by omega
    simp [h, hm]
  · have hm : min a.power b.power = a.power := by omega
    simp [h, hm]

lemma cross_snd (a b : DyadicFraction) :
    (saturating_cross a b).2.1 =
      if wrap8 (a.power - min a.power b.power) < 32
      then shlMask b.num (wrap8 (a.power - min a.power b.power))
      else if 0 < b.num then maxI32 else minI32 := by
  unfold saturating_cross
  by_cases h : b.power < a.power
  · have hm : min a.power b.power = b.power := by omega
    simp [h, hm]
  · have hm : min a.power b.power = a.power := by omega
    simp [h, hm]

lemma cross_power (a b : DyadicFraction) :
    (saturating_cross a b).2.2 = max a.power b.power := by
  unfold saturating_cross
  by_cases h : b.power < a.power
  · have hm : max a.power b.power = a.power := by omega
    simp [h, hm]
  · have hm : max a.power b.power = b.power := by omega
    simp [h, hm]

lemma roundLoopF_zero_stuck :
    ∀ fuel : Nat, roundLoopF fuel (-1) ⟨0, 0⟩ = none := by
  intro fuel
  induction fuel with
  | zero => rfl
  | succ n ih =>
    have hcond : (-1 : Int) < (⟨0, 0⟩ : DyadicFraction).power := by decide
    simp only [roundLoopF, if_pos hcond]
    have hstep : canonical ⟨(⟨0, 0⟩ : DyadicFraction).num -
        (⟨0, 0⟩ : DyadicFraction).num % 2, (⟨0, 0⟩ : DyadicFraction).power⟩ =
        (⟨0, 0⟩ : DyadicFraction) := by decide
    rw [hstep, ih]

end DyadicFraction

/-- Claim C2 (counterexample): canonicalization, applied to numerator 4 with
power 0, halves twice and drives the power to -2: it does change a value
whose power is already 0, and it does reduce the power below 0, contrary to
the claim. -/
theorem c2_counterexample :
    DyadicFraction.canonical ⟨4, 0⟩ = ⟨1, -2⟩ ∧
    (DyadicFraction.canonical ⟨4, 0⟩).power < 0 := by decide

/-- Claim C2 (amended): canonicalization halves the numerator (arithmetic
right shift) and decrements the power (wrapping i8 decrement) while the
numerator is nonzero and even, with no guard on the power at all; a zero
numerator forces power 0, and an odd numerator is left untouched. -/
theorem c2_canonical_rec (df : DyadicFraction) :
    DyadicFraction.canonical df =
      if df.num = 0 then ⟨0, 0⟩
      else if df.num % 2 = 0 then
        DyadicFraction.canonical ⟨df.num / 2, wrap8 (df.power - 1)⟩
      else df :=
  DyadicFraction.canonical_rec df

/-- Claim C3: round does not terminate on every input.  For the value 1 with
target power -1 the loop never exits, whatever iteration bound it is given:
the numerator reaches 0 at power 0, which stays above the negative target,
and clearing the least significant bit of 0 makes no further progress. -/
theorem c3_round_no_exit :
    ∀ fuel : Nat, DyadicFraction.roundF fuel ⟨1, 0⟩ (-1) = none := by
  intro fuel
  have hres : DyadicFraction.canonical ⟨1, 0⟩ = ⟨1, 0⟩ := by decide
  unfold DyadicFraction.roundF
  rw [hres]
  have : ¬ ((-1 : Int) ≥ (⟨1, 0⟩ : DyadicFraction).power) := by decide
  rw [if_neg this]
  cases fuel with
  | zero => rfl
  | succ n =>
    have hcond : (-1 : Int) < (⟨1, 0⟩ : DyadicFraction).power := by decide
    simp only [DyadicFraction.roundLoopF, if_pos hcond]
    have hstep : DyadicFraction.canonical ⟨(⟨1, 0⟩ : DyadicFraction).num -
        (⟨1, 0⟩ : DyadicFraction).num % 2, (⟨1, 0⟩ : DyadicFraction).power⟩ =
        (⟨0, 0⟩ : DyadicFraction) := by decide
    rw [hstep]
    exact DyadicFraction.roundLoopF_zero_stuck n

/-- Claim C4 (counterexample): in the alignment step a zero numerator shifted
by 32 or more becomes i32::MIN, not i32::MAX, although zero is non-negative:
the code tests is_positive, not is-non-negative. -/
theorem c4_counterexample :
    0 ≤ (⟨0, 0⟩ : DyadicFraction).num ∧
    (DyadicFraction.saturating_cross ⟨0, 0⟩ ⟨1, 32⟩).1 = minI32 ∧
    minI32 ≠ maxI32 := by decide

/-- Claim C4 (amended): when the computed i8 shift amount is at least 32 the
shift is not executed; the shifted numerator becomes i32::MAX when the value
being shifted has a strictly positive numerator and i32::MIN when its
numerator is zero or negative, for either operand position. -/
theorem c4_cross_saturates (a b : DyadicFraction)
    (h : 32 ≤ wrap8 (b.power - min a.power b.power)) :
    (DyadicFraction.saturating_cross a b).1 =
      (if 0 < a.num then maxI32 else minI32) ∧
    (DyadicFraction.saturating_cross b a).2.1 =
      (if 0 < a.num then maxI32 else minI32) := by
  have hn : ¬ (wrap8 (b.power - min a.power b.power) < 32) := by omega
  constructor
  · rw [DyadicFraction.cross_fst, if_neg hn]
  · rw [DyadicFraction.cross_snd, min_comm b.power a.power, if_neg hn]

/-- Claim C4 (witness for the amended theorem): aligning 0 with a value of
power 40 forces a shift of 40 on the zero numerator, which saturates to
i32::MIN. -/
theorem c4_cross_saturates_witness :
    32 ≤ wrap8 ((⟨1, 40⟩ : DyadicFraction).power -
      min (⟨0, 0⟩ : DyadicFraction).power (⟨1, 40⟩ : DyadicFraction).power) ∧
    ((DyadicFraction.saturating_cross ⟨0, 0⟩ ⟨1, 40⟩).1 =
      (if 0 < (⟨0, 0⟩ : DyadicFraction).num then maxI32 else minI32) ∧
    (DyadicFraction.saturating_cross ⟨1, 40⟩ ⟨0, 0⟩).2.1 =
      (if 0 < (⟨0, 0⟩ : DyadicFraction).num then maxI32 else minI32)) :=
  ⟨by decide, c4_cross_saturates ⟨0, 0⟩ ⟨1, 40⟩ (by decide)⟩

/-- Claim C5: div_by_two at the maximum power does not saturate; the i8
increment wraps 127 to -128 (and panics in a debug build), contradicting the
documented saturating increment. -/
theorem c5_div_by_two_wraps :
    DyadicFraction.div_by_two ⟨3, 127⟩ = ⟨3, -128⟩ := by decide

/-- Claim C9 (counterexample): new(80, 3) canonicalizes to (5, -1), which is
neither literally (10, -1) nor equivalent to it under the equality of the type
((10, -1) denotes 20, not 10). -/
theorem c9_counterexample :
    DyadicFraction.new 80 3 ≠ ⟨10, -1⟩ ∧
    ¬ DyadicFraction.eq (DyadicFraction.new 80 3) ⟨10, -1⟩ := by decide

/-- Claim C9 (amended): new(80, 3) canonicalizes to (5, -1), which is the
representation, in this type, of the integer 10 (it equals new(10, 0) under the
equality of the type), and its conversion to integer yields 10. -/
theorem c9_new_80_3 :
    DyadicFraction.new 80 3 = ⟨5, -1⟩ ∧
    DyadicFraction.eq (DyadicFraction.new 80 3) (DyadicFraction.new 10 0) ∧
    DyadicFraction.floor (DyadicFraction.new 80 3) = 10 := by decide

/-- Claim C10: update changes only last_error and error_sum; the three gains
and the two clamp bounds of the regulator are returned unchanged. -/
theorem c10_update_frame (r : Regulator) (sp v : DyadicFraction) :
    (r.update sp v).1.kp = r.kp ∧
    (r.update sp v).1.ki = r.ki ∧
    (r.update sp v).1.kd = r.kd ∧
    (r.update sp v).1.min_error_sum = r.min_error_sum ∧
    (r.update sp v).1.max_error_sum = r.max_error_sum :=
  ⟨rfl, rfl, rfl, rfl, rfl⟩

/-- Claim C6: each update call computes error = setpoint - measured and
error_delta = error - last_error, stores error as the new last_error, clamps
error_sum + error into [min_error_sum, max_error_sum] as the new error_sum,
and returns error*kp + error_sum*ki + error_delta*kd (with the freshly
clamped error_sum).  The hypothesis is the precondition of the core-library
clamp: the lower bound must not exceed the upper bound. -/
theorem c6_update_spec (r : Regulator) (sp v : DyadicFraction)
    (h : DyadicFraction.cmp r.min_error_sum r.max_error_sum ≠ 1) :
    r.update sp v =
      ({ r with
          last_error := DyadicFraction.sub sp v,
          error_sum := DyadicFraction.clamp
            (DyadicFraction.add r.error_sum (DyadicFraction.sub sp v))
            r.min_error_sum r.max_error_sum },
        DyadicFraction.add
          (DyadicFraction.add
            (DyadicFraction.mul (DyadicFraction.sub sp v) r.kp)
            (DyadicFraction.mul
              (DyadicFraction.clamp
                (DyadicFraction.add r.error_sum (DyadicFraction.sub sp v))
                r.min_error_sum r.max_error_sum)
              r.ki))
          (DyadicFraction.mul
            (DyadicFraction.sub (DyadicFraction.sub sp v) r.last_error)
            r.kd)) := rfl

/-- Claim C6 (witness): a concrete regulator with unit gains and clamp bounds
[-4, 4], driven with setpoint 5 and measurement 2. -/
theorem c6_update_spec_witness :
    DyadicFraction.cmp
      (Regulator.new ⟨1, 0⟩ ⟨1, 0⟩ ⟨1, 0⟩ ⟨-4, 0⟩ ⟨4, 0⟩).min_error_sum
      (Regulator.new ⟨1, 0⟩ ⟨1, 0⟩ ⟨1, 0⟩ ⟨-4, 0⟩ ⟨4, 0⟩).max_error_sum ≠ 1 ∧
    (Regulator.new ⟨1, 0⟩ ⟨1, 0⟩ ⟨1, 0⟩ ⟨-4, 0⟩ ⟨4, 0⟩).update ⟨5, 0⟩ ⟨2, 0⟩ =
      ({ Regulator.new ⟨1, 0⟩ ⟨1, 0⟩ ⟨1, 0⟩ ⟨-4, 0⟩ ⟨4, 0⟩ with
          last_error := DyadicFraction.sub ⟨5, 0⟩ ⟨2, 0⟩,
          error_sum := DyadicFraction.clamp
            (DyadicFraction.add
              (Regulator.new ⟨1, 0⟩ ⟨1, 0⟩ ⟨1, 0⟩ ⟨-4, 0⟩ ⟨4, 0⟩).error_sum
              (DyadicFraction.sub ⟨5, 0⟩ ⟨2, 0⟩))
            (Regulator.new ⟨1, 0⟩ ⟨1, 0⟩ ⟨1, 0⟩ ⟨-4, 0⟩ ⟨4, 0⟩).min_error_sum
            (Regulator.new ⟨1, 0⟩ ⟨1, 0⟩ ⟨1, 0⟩ ⟨-4, 0⟩ ⟨4, 0⟩).max_error_sum },
        DyadicFraction.add
          (DyadicFraction.add
            (DyadicFraction.mul (DyadicFraction.sub ⟨5, 0⟩ ⟨2, 0⟩)
              (Regulator.new ⟨1, 0⟩ ⟨1, 0⟩ ⟨1, 0⟩ ⟨-4, 0⟩ ⟨4, 0⟩).kp)
            (DyadicFraction.mul
              (DyadicFraction.clamp
                (DyadicFraction.add
                  (Regulator.new ⟨1, 0⟩ ⟨1, 0⟩ ⟨1, 0⟩ ⟨-4, 0⟩ ⟨4, 0⟩).error_sum
                  (DyadicFraction.sub ⟨5, 0⟩ ⟨2, 0⟩))
                (Regulator.new ⟨1, 0⟩ ⟨1, 0⟩ ⟨1, 0⟩ ⟨-4, 0⟩ ⟨4, 0⟩).min_error_sum
                (Regulator.new ⟨1, 0⟩ ⟨1, 0⟩ ⟨1, 0⟩ ⟨-4, 0⟩ ⟨4, 0⟩).max_error_sum)
              (Regulator.new ⟨1, 0⟩ ⟨1, 0⟩ ⟨1, 0⟩ ⟨-4, 0⟩ ⟨4, 0⟩).ki))
          (DyadicFraction.mul
            (DyadicFraction.sub (DyadicFraction.sub ⟨5, 0⟩ ⟨2, 0⟩)
              (Regulator.new ⟨1, 0⟩ ⟨1, 0⟩ ⟨1, 0⟩ ⟨-4, 0⟩ ⟨4, 0⟩).last_error)
            (Regulator.new ⟨1, 0⟩ ⟨1, 0⟩ ⟨1, 0⟩ ⟨-4, 0⟩ ⟨4, 0⟩).kd)) :=
  ⟨by decide,
    c6_update_spec (Regulator.new ⟨1, 0⟩ ⟨1, 0⟩ ⟨1, 0⟩ ⟨-4, 0⟩ ⟨4, 0⟩) ⟨5, 0⟩ ⟨2, 0⟩
      (by decide)⟩

lemma DyadicFraction.canonical_zero_num (p : Int) :
    DyadicFraction.canonical ⟨0, p⟩ = ⟨0, 0⟩ := by
  rw [DyadicFraction.canonical_rec]
  norm_num

/-- Claim C7 (counterexample): the claim fails on a reachable value.
div_by_two does not canonicalize, so iterating it on zero() reaches the
representation (0, 32), whose numerator 0 is not i32::MIN; there the
alignment shift of 32 turns the zero numerator of the negation into
i32::MIN, and (0, 32) + (-(0, 32)) evaluates to (-1, 1), which is not
zero() under the equality of the type. -/
theorem c7_counterexample :
    (⟨0, 32⟩ : DyadicFraction).num ≠ minI32 ∧
    DyadicFraction.div_by_two ⟨0, 31⟩ = ⟨0, 32⟩ ∧
    DyadicFraction.add ⟨0, 32⟩ (DyadicFraction.neg ⟨0, 32⟩) = ⟨-1, 1⟩ ∧
    ¬ DyadicFraction.eq
      (DyadicFraction.add ⟨0, 32⟩ (DyadicFraction.neg ⟨0, 32⟩))
      DyadicFraction.zero := by decide

/-- Claim C7 (amended): for every in-range value in canonical form (the form
every constructor except div_by_two returns; div_by_two can produce
non-canonical zero representations such as (0, 32) that violate the claim)
whose numerator is not i32::MIN, adding its negation yields the zero value
under the canonical-form equality of the type. -/
theorem c7_add_neg_eq_zero (a : DyadicFraction)
    (h1 : DyadicFraction.inRange a)
    (h2 : DyadicFraction.canonical a = a)
    (h3 : a.num ≠ minI32) :
    DyadicFraction.eq (DyadicFraction.add a (DyadicFraction.neg a))
      DyadicFraction.zero := by
  have hcf : DyadicFraction.canonForm a := h2 ▸ DyadicFraction.canonForm_canonical a
  rcases hcf with h0 | hodd
  · subst h0; decide
  · obtain ⟨hn1, hn2, hp1, hp2⟩ := h1
    have hmm : minI32 ≤ -a.num ∧ -a.num ≤ maxI32 := by
      unfold minI32 maxI32 at *; omega
    have hw : wrap32 (-a.num) = -a.num := wrap32_eq_self hmm.1 hmm.2
    have hoddneg : (⟨-a.num, a.power⟩ : DyadicFraction).num % 2 = 1 := by
      show (-a.num) % 2 = 1; omega
    have hneg : DyadicFraction.neg a = ⟨-a.num, a.power⟩ := by
      unfold DyadicFraction.neg DyadicFraction.new
      rw [hw]
      exact DyadicFraction.canonical_of_canonForm (Or.inr hoddneg)
    have hshl0 : ∀ x : Int, minI32 ≤ x → x ≤ maxI32 → shlMask x (wrap8 0) = x := by
      intro x hx1 hx2
      have hw0 : wrap8 0 = 0 := by decide
      rw [hw0]
      unfold shlMask
      norm_num
      exact wrap32_eq_self hx1 hx2
    have hf : (DyadicFraction.saturating_cross a ⟨-a.num, a.power⟩).1 = a.num := by
      rw [DyadicFraction.cross_fst]
      dsimp only
      rw [min_self, sub_self]
      rw [if_pos (by decide : wrap8 0 < 32)]
      exact hshl0 a.num hn1 hn2
    have hs : (DyadicFraction.saturating_cross a ⟨-a.num, a.power⟩).2.1 = -a.num := by
      rw [DyadicFraction.cross_snd]
      dsimp only
      rw [min_self, sub_self]
      rw [if_pos (by decide : wrap8 0 < 32)]
      exact hshl0 (-a.num) hmm.1 hmm.2
    have hp : (DyadicFraction.saturating_cross a ⟨-a.num, a.power⟩).2.2 = a.power := by
      rw [DyadicFraction.cross_power]
      dsimp only
      exact max_self _
    have hsat : satAdd32 a.num (-a.num) = 0 := by
      rw [satAdd32_eq_self (by norm_num [minI32]) (by norm_num [maxI32])]
      omega
    rw [hneg]
    unfold DyadicFraction.eq
    simp only [DyadicFraction.add]
    rw [hf, hs, hp, hsat]
    show DyadicFraction.canonical (DyadicFraction.canonical ⟨0, a.power⟩) =
      DyadicFraction.canonical ⟨0, 0⟩
    rw [DyadicFraction.canonical_idem, DyadicFraction.canonical_zero_num,
      DyadicFraction.canonical_zero_num 0]

/-- Claim C7 (witness): the canonical value 3/4. -/
theorem c7_add_neg_eq_zero_witness :
    DyadicFraction.inRange ⟨3, 2⟩ ∧
    DyadicFraction.canonical ⟨3, 2⟩ = ⟨3, 2⟩ ∧
    (⟨3, 2⟩ : DyadicFraction).num ≠ minI32 ∧
    DyadicFraction.eq
      (DyadicFraction.add ⟨3, 2⟩ (DyadicFraction.neg ⟨3, 2⟩))
      DyadicFraction.zero :=
  ⟨by decide, by decide, by decide,
    c7_add_neg_eq_zero ⟨3, 2⟩ (by decide) (by decide) (by decide)⟩

lemma sign_bounds (x : Int) : -1 ≤ x.sign ∧ x.sign ≤ 1 := by
  rcases x with (n | n)
  · cases n <;> simp [Int.sign]
  · simp [Int.sign]

lemma ediv_pow2_bounds (x : Int) (k : Nat) (h1 : minI32 ≤ x) (h2 : x ≤ maxI32) :
    minI32 ≤ x / 2 ^ k ∧ x / 2 ^ k ≤ maxI32 := by
  have hpos : (0 : Int) < 2 ^ k := by positivity
  have h2k : (1 : Int) ≤ 2 ^ k := hpos
  unfold minI32 maxI32 at *
  constructor
  · rw [Int.le_ediv_iff_mul_le hpos]
    nlinarith
  · calc x / 2 ^ k ≤ 2147483647 / 2 ^ k := Int.ediv_le_ediv hpos h2
    _ ≤ 2147483647 := Int.ediv_le_self _ (by norm_num)

namespace DyadicFraction

lemma add_inRange {a b : DyadicFraction} (ha : inRange a) (hb : inRange b) :
    inRange (add a b) := by
  simp only [DyadicFraction.add]
  refine new_inRange (satAdd32_bounds _ _).1 (satAdd32_bounds _ _).2 ?_ ?_
  · rw [cross_power]
    exact le_trans ha.2.2.1 (le_max_left _ _)
  · rw [cross_power]
    exact max_le ha.2.2.2 hb.2.2.2

lemma sub_inRange {a b : DyadicFraction} (ha : inRange a) (hb : inRange b) :
    inRange (sub a b) := by
  simp only [DyadicFraction.sub]
  refine new_inRange (satSub32_bounds _ _).1 (satSub32_bounds _ _).2 ?_ ?_
  · rw [cross_power]
    exact le_trans ha.2.2.1 (le_max_left _ _)
  · rw [cross_power]
    exact max_le ha.2.2.2 hb.2.2.2

lemma mul_inRange (a b : DyadicFraction) : inRange (mul a b) :=
  new_inRange (satMul32_bounds _ _).1 (satMul32_bounds _ _).2
    (satAdd8_bounds _ _).1 (satAdd8_bounds _ _).2

lemma neg_inRange {a : DyadicFraction} (ha : inRange a) : inRange (neg a) :=
  new_inRange (wrap32_bounds _).1 (wrap32_bounds _).2 ha.2.2.1 ha.2.2.2

lemma abs_inRange {a : DyadicFraction} (ha : inRange a) : inRange (abs a) :=
  new_inRange (wrap32_bounds _).1 (wrap32_bounds _).2 ha.2.2.1 ha.2.2.2

lemma signum_inRange (a : DyadicFraction) : inRange (signum a) := by
  have hs := sign_bounds a.num
  refine new_inRange ?_ ?_ (by norm_num) (by norm_num)
  · unfold minI32; omega
  · unfold maxI32; omega

lemma copysign_inRange {a : DyadicFraction} (ha : inRange a) (s : Int) :
    inRange (copysign a s) := by
  unfold copysign
  by_cases h : s.sign = a.num.sign
  · rw [if_pos h]; exact ha
  · rw [if_neg h]
    exact new_inRange (wrap32_bounds _).1 (wrap32_bounds _).2 ha.2.2.1 ha.2.2.2

lemma div_by_two_inRange {a : DyadicFraction} (ha : inRange a) :
    inRange (div_by_two a) :=
  ⟨ha.1, ha.2.1, (wrap8_bounds _).1, (wrap8_bounds _).2⟩

lemma powLoop_inRange (base : DyadicFraction) :
    ∀ (k : Nat) (acc : DyadicFraction), inRange acc → inRange (powLoop base k acc) := by
  intro k
  induction k with
  | zero => intro acc h; exact h
  | succ n ih => intro acc h; exact ih (mul acc base) (mul_inRange acc base)

lemma pow_inRange {a : DyadicFraction} (ha : inRange a) (n : Nat) :
    inRange (pow a n) := by
  unfold pow
  by_cases h : n = 0
  · rw [if_pos h]; exact signum_inRange a
  · rw [if_neg h]; exact powLoop_inRange a (n - 1) a ha

lemma floor_bounds {a : DyadicFraction} (ha : inRange a) :
    minI32 ≤ floor a ∧ floor a ≤ maxI32 := by
  obtain ⟨h1, h2, h3, h4⟩ := canonical_inRange ha
  simp only [DyadicFraction.floor]
  by_cases hb1 : 32 < wrap8 |(canonical a).power|
  · rw [if_pos hb1]
    by_cases hb2 : (canonical a).power < 0
    · rw [if_pos hb2]
      have hs := sign_bounds (canonical a).num
      unfold minI32 maxI32 at *
      omega
    · rw [if_neg hb2]
      norm_num [minI32, maxI32]
  · rw [if_neg hb1]
    by_cases hb2 : (canonical a).power < 0
    · rw [if_pos hb2]
      exact ⟨(wrap32_bounds _).1, (wrap32_bounds _).2⟩
    · rw [if_neg hb2]
      exact ediv_pow2_bounds _ _ h1 h2

lemma scale_bounds (a b : DyadicFraction) :
    minI32 ≤ scale a b ∧ scale a b ≤ maxI32 :=
  floor_bounds (mul_inRange (canonical a) b)

end DyadicFraction

/-- Claim C1 (counterexample): negation of the minimum numerator does not
saturate; in release mode the wrapped result is the value itself again,
canonicalized to (-1, -31), which is negative rather than the saturated
i32::MAX bound the claim requires (a debug build panics here instead). -/
theorem c1_counterexample :
    DyadicFraction.neg ⟨-2147483648, 0⟩ = ⟨-1, -31⟩ ∧
    (DyadicFraction.neg ⟨-2147483648, 0⟩).num < 0 := by decide

/-- Claim C1 (amended): construction, add, subtract, multiply, negate, abs,
signum, copysign, div_by_two, pow, scale, canonicalization and conversion to
i32 are total functions that keep the representation in range (i32 numerator,
i8 power); numerator overflow in add/subtract/multiply and the power addition of multiply whose
overflow saturate by construction, while negate/abs at i32::MIN, div_by_two
at i8::MAX and the conversion shifts wrap instead of saturating, and round is
not total (claim C3). -/
theorem c1_ops_in_range (a b : DyadicFraction)
    (ha : DyadicFraction.inRange a) (hb : DyadicFraction.inRange b) :
    DyadicFraction.inRange (DyadicFraction.new a.num a.power) ∧
    DyadicFraction.inRange (DyadicFraction.add a b) ∧
    DyadicFraction.inRange (DyadicFraction.sub a b) ∧
    DyadicFraction.inRange (DyadicFraction.mul a b) ∧
    DyadicFraction.inRange (DyadicFraction.neg a) ∧
    DyadicFraction.inRange (DyadicFraction.abs a) ∧
    DyadicFraction.inRange (DyadicFraction.signum a) ∧
    (∀ s : Int, DyadicFraction.inRange (DyadicFraction.copysign a s)) ∧
    DyadicFraction.inRange (DyadicFraction.div_by_two a) ∧
    DyadicFraction.inRange (DyadicFraction.canonical a) ∧
    (∀ n : Nat, DyadicFraction.inRange (DyadicFraction.pow a n)) ∧
    (minI32 ≤ DyadicFraction.floor a ∧ DyadicFraction.floor a ≤ maxI32) ∧
    (minI32 ≤ DyadicFraction.scale a b ∧ DyadicFraction.scale a b ≤ maxI32) :=
  ⟨DyadicFraction.canonical_inRange ha,
    DyadicFraction.add_inRange ha hb,
    DyadicFraction.sub_inRange ha hb,
    DyadicFraction.mul_inRange a b,
    DyadicFraction.neg_inRange ha,
    DyadicFraction.abs_inRange ha,
    DyadicFraction.signum_inRange a,
    fun s => DyadicFraction.copysign_inRange ha s,
    DyadicFraction.div_by_two_inRange ha,
    DyadicFraction.canonical_inRange ha,
    fun n => DyadicFraction.pow_inRange ha n,
    DyadicFraction.floor_bounds ha,
    DyadicFraction.scale_bounds a b⟩

/-- Claim C1 (witness): the values 3/4 and 5/2. -/
theorem c1_ops_in_range_witness :
    DyadicFraction.inRange ⟨3, 2⟩ ∧
    DyadicFraction.inRange ⟨5, 1⟩ ∧
    DyadicFraction.inRange (DyadicFraction.add ⟨3, 2⟩ ⟨5, 1⟩) :=
  ⟨by decide, by decide, (c1_ops_in_range ⟨3, 2⟩ ⟨5, 1⟩ (by decide) (by decide)).2.1⟩

namespace DyadicFraction

lemma val_num_eq {x y : DyadicFraction} (h : val x = val y) :
    (x.num : ℚ) = (y.num : ℚ) * (2 : ℚ) ^ (x.power - y.power) := by
  unfold val at h
  calc (x.num : ℚ)
      = (x.num : ℚ) * (2 : ℚ) ^ (-x.power) * (2 : ℚ) ^ (x.power) := by
        rw [mul_assoc, ← zpow_add₀ (two_ne_zero : (2 : ℚ) ≠ 0), neg_add_cancel,
          zpow_zero, mul_one]
    _ = (y.num : ℚ) * (2 : ℚ) ^ (-y.power) * (2 : ℚ) ^ (x.power) := by rw [h]
    _ = (y.num : ℚ) * (2 : ℚ) ^ (x.power - y.power) := by
        rw [mul_assoc, ← zpow_add₀ (two_ne_zero : (2 : ℚ) ≠ 0), neg_add_eq_sub]

lemma odd_absorb {n m d : Int} (hd : 0 < d) (hn : n % 2 = 1)
    (h : (n : ℚ) = (m : ℚ) * (2 : ℚ) ^ d) : False := by
  have hdk : d = (d.toNat : Int) := by omega
  rw [hdk, zpow_natCast] at h
  have h3 : n = m * 2 ^ d.toNat := by exact_mod_cast h
  have hdvd : (2 : Int) ∣ 2 ^ d.toNat := dvd_pow_self 2 (by omega)
  obtain ⟨t, ht⟩ := hdvd
  rw [ht] at h3
  have h4 : n = 2 * (m * t) := by rw [h3]; ring
  omega

/-- Two canonical-form representations with the same rational value are
identical. -/
lemma val_inj {x y : DyadicFraction} (hx : canonForm x) (hy : canonForm y)
    (h : val x = val y) : x = y := by
  have hval_ne : ∀ z : DyadicFraction, z.num % 2 = 1 → val z ≠ 0 := by
    intro z hz
    unfold val
    have hzn : (z.num : ℚ) ≠ 0 := by
      have : z.num ≠ 0 := by omega
      exact_mod_cast this
    exact mul_ne_zero hzn (zpow_ne_zero _ two_ne_zero)
  rcases hx with hx0 | hx1
  · rcases hy with hy0 | hy1
    · rw [hx0, hy0]
    · exfalso
      rw [hx0] at h
      have h0 : val ⟨0, 0⟩ = (0 : ℚ) := by norm_num [val]
      rw [h0] at h
      exact hval_ne y hy1 h.symm
  · rcases hy with hy0 | hy1
    · exfalso
      rw [hy0] at h
      have h0 : val ⟨0, 0⟩ = (0 : ℚ) := by norm_num [val]
      rw [h0] at h
      exact hval_ne x hx1 h
    · by_cases hpp : x.power = y.power
      · have key := val_num_eq h
        rw [hpp, sub_self, zpow_zero, mul_one] at key
        have hnum : x.num = y.num := by exact_mod_cast key
        obtain ⟨xn, xp⟩ := x
        obtain ⟨yn, yp⟩ := y
        dsimp only at hnum hpp
        rw [hnum, hpp]
      · exfalso
        rcases lt_or_gt_of_ne hpp with hlt | hgt
        · exact odd_absorb (by omega : 0 < y.power - x.power) hy1 (val_num_eq h.symm)
        · exact odd_absorb (by omega : 0 < x.power - y.power) hx1 (val_num_eq h)

lemma canonForm_sub (a b : DyadicFraction) : canonForm (sub a b) :=
  canonForm_canonical _

end DyadicFraction

/-- Claim C8: if the addition a + b is exact (its result denotes exactly the
sum of the rational values of the operands, that is, no saturation or wrap occurred
in the aligning shifts or the numerator addition) and the subsequent
subtraction of b is exact in the same sense, then (a + b) - b equals a under
the equality of the type, for a in canonical form. -/
theorem c8_add_sub_roundtrip (a b : DyadicFraction)
    (ha : DyadicFraction.canonical a = a)
    (hadd : DyadicFraction.val (DyadicFraction.add a b) =
      DyadicFraction.val a + DyadicFraction.val b)
    (hsub : DyadicFraction.val (DyadicFraction.sub (DyadicFraction.add a b) b) =
      DyadicFraction.val (DyadicFraction.add a b) - DyadicFraction.val b) :
    DyadicFraction.eq (DyadicFraction.sub (DyadicFraction.add a b) b) a := by
  have hval : DyadicFraction.val (DyadicFraction.sub (DyadicFraction.add a b) b) =
      DyadicFraction.val a := by rw [hsub, hadd]; ring
  have hcf1 : DyadicFraction.canonForm
      (DyadicFraction.sub (DyadicFraction.add a b) b) :=
    DyadicFraction.canonForm_sub _ _
  have hcf2 : DyadicFraction.canonForm a := ha ▸ DyadicFraction.canonForm_canonical a
  have hxy := DyadicFraction.val_inj hcf1 hcf2 hval
  unfold DyadicFraction.eq
  rw [hxy]

/-- Claim C8 (witness): a = 1/2, b = 1/4; both operations are exact and the
round trip returns 1/2. -/
theorem c8_add_sub_roundtrip_witness :
    DyadicFraction.canonical ⟨1, 1⟩ = ⟨1, 1⟩ ∧
    DyadicFraction.val (DyadicFraction.add ⟨1, 1⟩ ⟨1, 2⟩) =
      DyadicFraction.val ⟨1, 1⟩ + DyadicFraction.val ⟨1, 2⟩ ∧
    DyadicFraction.val (DyadicFraction.sub (DyadicFraction.add ⟨1, 1⟩ ⟨1, 2⟩) ⟨1, 2⟩) =
      DyadicFraction.val (DyadicFraction.add ⟨1, 1⟩ ⟨1, 2⟩) -
        DyadicFraction.val ⟨1, 2⟩ ∧
    DyadicFraction.eq (DyadicFraction.sub (DyadicFraction.add ⟨1, 1⟩ ⟨1, 2⟩) ⟨1, 2⟩)
      ⟨1, 1⟩ := by
  have e1 : DyadicFraction.add ⟨1, 1⟩ ⟨1, 2⟩ = ⟨3, 2⟩ := by decide
  have e2 : DyadicFraction.sub ⟨3, 2⟩ ⟨1, 2⟩ = ⟨1, 1⟩ := by decide
  have hadd : DyadicFraction.val (DyadicFraction.add ⟨1, 1⟩ ⟨1, 2⟩) =
      DyadicFraction.val ⟨1, 1⟩ + DyadicFraction.val ⟨1, 2⟩ := by
    rw [e1]; norm_num [DyadicFraction.val]
  have hsub : DyadicFraction.val
        (DyadicFraction.sub (DyadicFraction.add ⟨1, 1⟩ ⟨1, 2⟩) ⟨1, 2⟩) =
      DyadicFraction.val (DyadicFraction.add ⟨1, 1⟩ ⟨1, 2⟩) -
        DyadicFraction.val ⟨1, 2⟩ := by
    rw [e1, e2]; norm_num [DyadicFraction.val]
  exact ⟨by decide, hadd, hsub,
    c8_add_sub_roundtrip ⟨1, 1⟩ ⟨1, 2⟩ (by decide) hadd hsub⟩

/-! Fidelity checks: the embedding reproduces the test vectors of
tests/test.rs evaluated on the embedded operations. -/

/-- tests/test.rs test_add: (2 + 4/8) * 1000 floors to 2500. -/
theorem vector_add :
    DyadicFraction.floor
      (DyadicFraction.mul
        (DyadicFraction.add (DyadicFraction.new 2 0) (DyadicFraction.new 4 3))
        (DyadicFraction.new 1000 0)) = 2500 := by decide

/-- tests/test.rs test_sub: (2 - 4/8) * 1000 floors to 1500. -/
theorem vector_sub :
    DyadicFraction.floor
      (DyadicFraction.mul
        (DyadicFraction.sub (DyadicFraction.new 2 0) (DyadicFraction.new 4 3))
        (DyadicFraction.new 1000 0)) = 1500 := by decide

/-- tests/test.rs test_mul: 3/4 * 100 floors to 75. -/
theorem vector_mul :
    DyadicFraction.floor
      (DyadicFraction.mul (DyadicFraction.new 3 2) (DyadicFraction.new 100 0)) =
      75 := by decide

/-- tests/test.rs test_neg. -/
theorem vector_neg :
    DyadicFraction.eq (DyadicFraction.new 3 2)
      (DyadicFraction.neg (DyadicFraction.new (-3) 2)) := by decide

/-- tests/test.rs test_abs. -/
theorem vector_abs :
    DyadicFraction.eq (DyadicFraction.new 3 2)
      (DyadicFraction.abs (DyadicFraction.new (-3) 2)) := by decide

/-- tests/test.rs test_eq: 4/8 equals 8/16. -/
theorem vector_eq :
    DyadicFraction.eq (DyadicFraction.new 4 3) (DyadicFraction.new 8 4) := by decide

/-- tests/test.rs test_cmp: 4/8 is greater than 7/16. -/
theorem vector_cmp :
    DyadicFraction.cmp (DyadicFraction.new 4 3) (DyadicFraction.new 7 4) = 1 := by
  decide

/-- tests/test.rs test_copysign. -/
theorem vector_copysign :
    DyadicFraction.copysign (DyadicFraction.new 4 3) 42 = DyadicFraction.new 4 3 ∧
    DyadicFraction.eq (DyadicFraction.copysign (DyadicFraction.new 4 3) (-42))
      (DyadicFraction.neg (DyadicFraction.new 4 3)) ∧
    DyadicFraction.eq (DyadicFraction.copysign (DyadicFraction.new (-7) 4) 42)
      (DyadicFraction.neg (DyadicFraction.new (-7) 4)) ∧
    DyadicFraction.copysign (DyadicFraction.new (-7) 4) (-42) =
      DyadicFraction.new (-7) 4 := by decide

/-- tests/test.rs test_pow: (3/8)^4 = 81/4096. -/
theorem vector_pow :
    DyadicFraction.eq (DyadicFraction.pow (DyadicFraction.new 3 3) 4)
      (DyadicFraction.new 81 12) := by decide

/-- tests/test.rs test_scale: floor semantics of scale on both signs. -/
theorem vector_scale :
    DyadicFraction.scale (DyadicFraction.new 3 3) (DyadicFraction.new 1000 0) = 375 ∧
    DyadicFraction.scale (DyadicFraction.new 3 3) (DyadicFraction.new (-1000) 0) = -375 ∧
    DyadicFraction.scale (DyadicFraction.new 3 3) (DyadicFraction.new 100 0) = 37 ∧
    DyadicFraction.scale (DyadicFraction.new 3 3) (DyadicFraction.new (-100) 0) = -38 := by
  decide

/-- tests/test.rs test_mul_add: 3/8 * 1000 + 5 = 380. -/
theorem vector_mul_add :
    DyadicFraction.eq
      (DyadicFraction.mul_add (DyadicFraction.new 3 3) (DyadicFraction.new 1000 0)
        (DyadicFraction.new 5 0))
      (DyadicFraction.new 380 0) := by decide

/-- tests/test.rs test_div_by_two: (3/8)/2 scaled by 100 floors to 18. -/
theorem vector_div_by_two :
    DyadicFraction.scale (DyadicFraction.div_by_two (DyadicFraction.new 3 3))
      (DyadicFraction.new 100 0) = 18 := by decide

/-- tests/test.rs test_round (the loop exits well within 300 iterations on
these inputs). -/
theorem vector_round :
    DyadicFraction.roundF 300 (DyadicFraction.new 141 5) 4 =
      some (DyadicFraction.new 35 3) ∧
    DyadicFraction.roundF 300 (DyadicFraction.new 142 5) 4 =
      some (DyadicFraction.new 71 4) ∧
    DyadicFraction.roundF 300 (DyadicFraction.new 143 5) 4 =
      some (DyadicFraction.new 71 4) ∧
    DyadicFraction.roundF 300 (DyadicFraction.new 145 5) 3 =
      some (DyadicFraction.new 9 1) := by decide
